import Mathlib

/-!
Verification development for the disim diffusion-of-innovation simulator.

The definitions below are a shallow embedding of the Python sources:
* the adoption round loop of src/disim/disim.py (run1997ThresholdModel),
* the core-periphery graph generator of src/disim/graphgen.py,
* the boundary weakness / pressure point search of src/disim/graphsearch.py,
* the running-statistics accumulator of src/disim/data.py,
* the tie counting helper of src/disim/stats.py.

Machine floats are modelled by exact rationals; the random draws of the
original program (per-round shuffles, random edge samples) appear as explicit
parameters, so every theorem quantifies over all possible draws.
-/

/-! ### The diffusion simulation (disim.py, run1997ThresholdModel round loop)

The networkx graph is represented by its node list and neighbor lists.
The per-node attributes set by the simulator (G.node[a]['I'], ['A'],
['adopted'], ['influence']) form the mutable agent state.
-/

/-- Topology of the simulated network: G.nodes() and G.neighbors(a). -/
structure Network where
  nodes : List Nat
  neighbors : Nat → List Nat

/-- The per-node attributes used by the round loop of run1997ThresholdModel. -/
structure AgentState where
  I : Nat → Rat
  A : Nat → Rat
  adopted : Nat → Bool
  influence : Nat → List Nat

/-- adoptedNeighbors: the neighbors of a with G.node[n]['adopted'] == True. -/
def adoptedNeighbors (G : Network) (st : AgentState) (a : Nat) : List Nat :=
  (G.neighbors a).filter st.adopted

/-- The bandwagon pressure expression, parametrized by an arbitrary adopted
predicate S: I_a + A_a * (len((neighbors a).filter S) / number_of_nodes). -/
def pressureOf (G : Network) (Iv Av : Nat → Rat) (S : Nat → Bool) (a : Nat) : Rat :=
  Iv a + Av a * ((((G.neighbors a).filter S).length : Rat) / (G.nodes.length : Rat))

/-- Bik = I_i + (A_i * Pk1) with Pk1 = len(adoptedNeighbors)/G.number_of_nodes(). -/
def bandwagonPressure (G : Network) (st : AgentState) (a : Nat) : Rat :=
  pressureOf G st.I st.A st.adopted a

/-- The adoption assignment of the loop body: G.node[a]['adopted'] = True;
G.node[a]['influence'] = adoptedNeighbors (evaluated on the pre-state). -/
def adoptAgent (G : Network) (st : AgentState) (a : Nat) : AgentState :=
  { st with
    adopted := fun x => if x = a then true else st.adopted x
    influence := fun x => if x = a then adoptedNeighbors G st a else st.influence x }

/-- One evaluation of the loop body for agent a: adopt exactly when Bik > 0. -/
def evalAgent (G : Network) (st : AgentState) (a : Nat) : AgentState :=
  if 0 < bandwagonPressure G st a then adoptAgent G st a else st

/-- The inner for-loop over the shuffled agents, threading madeChange. -/
def processAgents (G : Network) : List Nat → AgentState × Bool → AgentState × Bool
  | [], p => p
  | a :: rest, p =>
      processAgents G rest (evalAgent G p.1 a, p.2 || decide (0 < bandwagonPressure G p.1 a))

/-- agents = [n for n in G.nodes() if not G.node[n]['adopted']]. -/
def unadoptedAgents (G : Network) (st : AgentState) : List Nat :=
  G.nodes.filter (fun n => ! st.adopted n)

/-- The while-True round loop.  sh k is the uniformly random shuffle used in
round k (a permutation of its argument); fuel bounds the number of rounds,
which suffices because the loop reaches a fixed point (proved below). -/
def simLoop (G : Network) (sh : Nat → List Nat → List Nat) :
    Nat → Nat → AgentState → AgentState
  | _, 0, st => st
  | k, fuel + 1, st =>
      let p := processAgents G (sh k (unadoptedAgents G st)) (st, false)
      if p.2 then simLoop G sh (k + 1) fuel p.1 else p.1

/-- Number of adopted nodes of the network. -/
def adoptedCount (G : Network) (st : AgentState) : Nat :=
  (G.nodes.filter st.adopted).length

/-- Number of not-yet-adopted nodes of the network. -/
def unadoptedCount (G : Network) (st : AgentState) : Nat :=
  (unadoptedAgents G st).length

/-- Terminal condition of the simulation: no remaining agent's bandwagon
pressure signal exceeds 0. -/
def isFixedPoint (G : Network) (st : AgentState) : Prop :=
  ∀ a ∈ G.nodes, st.adopted a = false → ¬ 0 < bandwagonPressure G st a

/-! #### Basic state lemmas -/

theorem adoptAgent_I (G : Network) (st : AgentState) (a : Nat) :
    (adoptAgent G st a).I = st.I := rfl

theorem adoptAgent_A (G : Network) (st : AgentState) (a : Nat) :
    (adoptAgent G st a).A = st.A := rfl

theorem evalAgent_I (G : Network) (st : AgentState) (a : Nat) :
    (evalAgent G st a).I = st.I := by
  unfold evalAgent; split <;> rfl

theorem evalAgent_A (G : Network) (st : AgentState) (a : Nat) :
    (evalAgent G st a).A = st.A := by
  unfold evalAgent; split <;> rfl

theorem evalAgent_adopted_mono (G : Network) (st : AgentState) (a x : Nat)
    (h : st.adopted x = true) : (evalAgent G st a).adopted x = true := by
  unfold evalAgent
  split
  · show (if x = a then true else st.adopted x) = true
    split <;> simp [h]
  · exact h

theorem processAgents_I (G : Network) :
    ∀ (l : List Nat) (p : AgentState × Bool), ((processAgents G l p).1).I = p.1.I
  | [], _ => rfl
  | a :: rest, p => by
      rw [processAgents, processAgents_I G rest, evalAgent_I]

theorem processAgents_A (G : Network) :
    ∀ (l : List Nat) (p : AgentState × Bool), ((processAgents G l p).1).A = p.1.A
  | [], _ => rfl
  | a :: rest, p => by
      rw [processAgents, processAgents_A G rest, evalAgent_A]

theorem processAgents_adopted_mono (G : Network) :
    ∀ (l : List Nat) (p : AgentState × Bool) (x : Nat),
      p.1.adopted x = true → ((processAgents G l p).1).adopted x = true
  | [], _, _, h => h
  | a :: rest, p, x, h => by
      rw [processAgents]
      exact processAgents_adopted_mono G rest _ x (evalAgent_adopted_mono G p.1 a x h)

theorem simLoop_adopted_mono (G : Network) (sh : Nat → List Nat → List Nat) :
    ∀ (fuel k : Nat) (st : AgentState) (x : Nat),
      st.adopted x = true → (simLoop G sh k fuel st).adopted x = true
  | 0, _, _, _, h => h
  | fuel + 1, k, st, x, h => by
      rw [simLoop]
      set p := processAgents G (sh k (unadoptedAgents G st)) (st, false) with hp
      have h1 : p.1.adopted x = true := processAgents_adopted_mono G _ _ x h
      by_cases hc : p.2
      · simp only [hc, if_true]
        exact simLoop_adopted_mono G sh fuel (k + 1) p.1 x h1
      · simp only [hc, if_false]
        exact h1

theorem simLoop_I (G : Network) (sh : Nat → List Nat → List Nat) :
    ∀ (fuel k : Nat) (st : AgentState), (simLoop G sh k fuel st).I = st.I
  | 0, _, _ => rfl
  | fuel + 1, k, st => by
      rw [simLoop]
      set p := processAgents G (sh k (unadoptedAgents G st)) (st, false) with hp
      have h1 : p.1.I = st.I := processAgents_I G _ _
      by_cases hc : p.2
      · simp only [hc, if_true]
        rw [simLoop_I G sh fuel (k + 1) p.1, h1]
      · simp only [hc, if_false]
        exact h1

theorem simLoop_A (G : Network) (sh : Nat → List Nat → List Nat) :
    ∀ (fuel k : Nat) (st : AgentState), (simLoop G sh k fuel st).A = st.A
  | 0, _, _ => rfl
  | fuel + 1, k, st => by
      rw [simLoop]
      set p := processAgents G (sh k (unadoptedAgents G st)) (st, false) with hp
      have h1 : p.1.A = st.A := processAgents_A G _ _
      by_cases hc : p.2
      · simp only [hc, if_true]
        rw [simLoop_A G sh fuel (k + 1) p.1, h1]
      · simp only [hc, if_false]
        exact h1

/-! #### madeChange bookkeeping -/

theorem processAgents_snd_mono (G : Network) :
    ∀ (l : List Nat) (p : AgentState × Bool), p.2 = true → (processAgents G l p).2 = true
  | [], _, h => h
  | a :: rest, p, h => by
      rw [processAgents]
      exact processAgents_snd_mono G rest _ (by simp [h])

theorem processAgents_no_change (G : Network) :
    ∀ (l : List Nat) (st : AgentState),
      (processAgents G l (st, false)).2 = false →
      (processAgents G l (st, false)).1 = st ∧
        ∀ a ∈ l, ¬ 0 < bandwagonPressure G st a
  | [], st, _ => ⟨rfl, by intro a ha; cases ha⟩
  | a :: rest, st, h => by
      rw [processAgents] at h ⊢
      by_cases hd : 0 < bandwagonPressure G st a
      · exfalso
        have : (processAgents G rest (evalAgent G st a, false || decide (0 < bandwagonPressure G st a))).2 = true := by
          apply processAgents_snd_mono
          simp [hd]
        rw [this] at h
        exact Bool.noConfusion h
      · have hd' : decide (0 < bandwagonPressure G st a) = false := by
          simp [hd]
        have he : evalAgent G st a = st := by
          unfold evalAgent; simp [hd]
        rw [hd', he] at h ⊢
        have ih := processAgents_no_change G rest st (by simpa using h)
        refine ⟨by simpa using ih.1, ?_⟩
        intro b hb
        rcases List.mem_cons.mp hb with rfl | hb
        · exact hd
        · exact ih.2 b hb

theorem processAgents_adoption_witness (G : Network) :
    ∀ (l : List Nat) (st : AgentState),
      (∀ a ∈ l, st.adopted a = false) →
      (processAgents G l (st, false)).2 = true →
      ∃ a, a ∈ l ∧ st.adopted a = false ∧
        (processAgents G l (st, false)).1.adopted a = true
  | [], st, _, h => by cases h
  | a :: rest, st, hl, h => by
      rw [processAgents] at h ⊢
      by_cases hd : 0 < bandwagonPressure G st a
      · refine ⟨a, List.mem_cons_self a rest, hl a (List.mem_cons_self a rest), ?_⟩
        apply processAgents_adopted_mono
        show (evalAgent G st a).adopted a = true
        unfold evalAgent
        rw [if_pos hd]
        show (if a = a then true else st.adopted a) = true
        simp
      · have hd' : decide (0 < bandwagonPressure G st a) = false := by simp [hd]
        have he : evalAgent G st a = st := by unfold evalAgent; simp [hd]
        rw [hd', he] at h ⊢
        simp only [Bool.or_false] at h ⊢
        obtain ⟨b, hb, h1, h2⟩ :=
          processAgents_adoption_witness G rest st
            (fun x hx => hl x (List.mem_cons_of_mem a hx)) h
        exact ⟨b, List.mem_cons_of_mem a hb, h1, h2⟩

/-! #### Counting unadopted agents -/

theorem filter_length_le_of_imp (p q : Nat → Bool) (h : ∀ x, p x = true → q x = true) :
    ∀ l : List Nat, (l.filter p).length ≤ (l.filter q).length
  | [] => le_refl _
  | x :: t => by
      have ih := filter_length_le_of_imp p q h t
      by_cases hp : p x = true
      · have hq := h x hp
        simp [List.filter_cons, hp, hq, Nat.succ_le_succ ih]
      · have hp' : p x = false := by revert hp; cases p x <;> simp
        by_cases hq : q x = true
        · simp only [List.filter_cons, hp', hq, if_false, if_true, cond_true, cond_false]
          exact le_trans ih (Nat.le_succ _)
        · have hq' : q x = false := by revert hq; cases q x <;> simp
          simpa [List.filter_cons, hp', hq'] using ih

theorem filter_length_lt_of_flip (p q : Nat → Bool) (h : ∀ x, p x = true → q x = true)
    (a : Nat) (hpa : p a = false) (hqa : q a = true) :
    ∀ l : List Nat, a ∈ l → (l.filter p).length < (l.filter q).length
  | [], ha => by cases ha
  | x :: t, ha => by
      rcases List.mem_cons.mp ha with rfl | hat
      · simp only [List.filter_cons, hpa, hqa, cond_true, cond_false, if_true, if_false]
        exact Nat.lt_succ_of_le (filter_length_le_of_imp p q h t)
      · have ih := filter_length_lt_of_flip p q h a hpa hqa t hat
        by_cases hp : p x = true
        · have hq := h x hp
          simpa [List.filter_cons, hp, hq] using Nat.succ_lt_succ ih
        · have hp' : p x = false := by revert hp; cases p x <;> simp
          by_cases hq : q x = true
          · simp only [List.filter_cons, hp', hq, if_false, if_true, cond_true, cond_false]
            exact Nat.lt_succ_of_lt ih
          · have hq' : q x = false := by revert hq; cases q x <;> simp
            simpa [List.filter_cons, hp', hq'] using ih

theorem mem_unadoptedAgents (G : Network) (st : AgentState) (a : Nat) :
    a ∈ unadoptedAgents G st ↔ a ∈ G.nodes ∧ st.adopted a = false := by
  unfold unadoptedAgents
  rw [List.mem_filter]
  simp

/-- A round whose madeChange flag is set strictly decreases the number of
unadopted agents. -/
theorem round_decrease (G : Network) (sh : Nat → List Nat → List Nat)
    (hsh : ∀ k l, List.Perm (sh k l) l) (k : Nat) (st : AgentState)
    (hc : (processAgents G (sh k (unadoptedAgents G st)) (st, false)).2 = true) :
    unadoptedCount G (processAgents G (sh k (unadoptedAgents G st)) (st, false)).1 <
      unadoptedCount G st := by
  set order := sh k (unadoptedAgents G st) with horder
  have hmem : ∀ a ∈ order, a ∈ unadoptedAgents G st := fun a ha =>
    (hsh k (unadoptedAgents G st)).mem_iff.mp ha
  have hl : ∀ a ∈ order, st.adopted a = false := fun a ha =>
    ((mem_unadoptedAgents G st a).mp (hmem a ha)).2
  obtain ⟨a, hao, hfalse, htrue⟩ := processAgents_adoption_witness G order st hl hc
  set st' := (processAgents G order (st, false)).1 with hst'
  have hmono : ∀ x, st.adopted x = true → st'.adopted x = true := fun x hx =>
    processAgents_adopted_mono G order _ x hx
  have himp : ∀ x, (! st'.adopted x) = true → (! st.adopted x) = true := by
    intro x hx
    rcases Bool.eq_false_or_eq_true (st.adopted x) with h1 | h1
    · rw [hmono x h1] at hx
      exact Bool.noConfusion hx
    · simp [h1]
  have hanodes : a ∈ G.nodes := ((mem_unadoptedAgents G st a).mp (hmem a hao)).1
  unfold unadoptedCount unadoptedAgents
  exact filter_length_lt_of_flip _ _ himp a (by simp [htrue]) (by simp [hfalse]) G.nodes hanodes

/-! #### Termination: the round loop reaches a fixed point -/

theorem simLoop_fixedPoint (G : Network) (sh : Nat → List Nat → List Nat)
    (hsh : ∀ k l, List.Perm (sh k l) l) :
    ∀ (fuel k : Nat) (st : AgentState), unadoptedCount G st < fuel →
      isFixedPoint G (simLoop G sh k fuel st)
  | 0, _, _, hlt => absurd hlt (Nat.not_lt_zero _)
  | fuel + 1, k, st, hlt => by
      rw [simLoop]
      set p := processAgents G (sh k (unadoptedAgents G st)) (st, false) with hp
      by_cases hc : p.2
      · simp only [hc, if_true]
        have hdec : unadoptedCount G p.1 < unadoptedCount G st :=
          round_decrease G sh hsh k st hc
        exact simLoop_fixedPoint G sh hsh fuel (k + 1) p.1
          (lt_of_lt_of_le hdec (Nat.lt_succ_iff.mp hlt))
      · rw [if_neg hc]
        have hc' : p.2 = false := Bool.eq_false_iff.mpr hc
        obtain ⟨heq, hnone⟩ := processAgents_no_change G _ st hc'
        rw [hp, heq]
        intro a ha hfalse
        have hmem : a ∈ sh k (unadoptedAgents G st) :=
          (hsh k (unadoptedAgents G st)).mem_iff.mpr
            ((mem_unadoptedAgents G st a).mpr ⟨ha, hfalse⟩)
        exact hnone a hmem

theorem simLoop_fuel_eq (G : Network) (sh : Nat → List Nat → List Nat)
    (hsh : ∀ k l, List.Perm (sh k l) l) :
    ∀ (f1 f2 k : Nat) (st : AgentState),
      unadoptedCount G st < f1 → unadoptedCount G st < f2 →
      simLoop G sh k f1 st = simLoop G sh k f2 st
  | 0, _, _, _, h1, _ => absurd h1 (Nat.not_lt_zero _)
  | _ + 1, 0, _, _, _, h2 => absurd h2 (Nat.not_lt_zero _)
  | g1 + 1, g2 + 1, k, st, h1, h2 => by
      rw [simLoop, simLoop]
      set p := processAgents G (sh k (unadoptedAgents G st)) (st, false) with hp
      by_cases hc : p.2
      · simp only [hc, if_true]
        have hdec : unadoptedCount G p.1 < unadoptedCount G st :=
          round_decrease G sh hsh k st hc
        exact simLoop_fuel_eq G sh hsh g1 g2 (k + 1) p.1
          (lt_of_lt_of_le hdec (Nat.lt_succ_iff.mp h1))
          (lt_of_lt_of_le hdec (Nat.lt_succ_iff.mp h2))
      · rw [if_neg hc, if_neg hc]

theorem unadoptedCount_le (G : Network) (st : AgentState) :
    unadoptedCount G st ≤ G.nodes.length :=
  List.length_filter_le _ _

theorem unadoptedCount_lt_of_seed (G : Network) (st : AgentState) (s : Nat)
    (hs : s ∈ G.nodes) (hadopt : st.adopted s = true) :
    unadoptedCount G st < G.nodes.length := by
  have h := filter_length_lt_of_flip (fun n => ! st.adopted n) (fun _ => true)
    (fun x _ => rfl) s (by simp [hadopt]) rfl G.nodes hs
  simpa [unadoptedCount, unadoptedAgents] using h

/-! #### Order invariance of the adopted set (for nonnegative ambiguity) -/

theorem pressureOf_mono (G : Network) (Iv Av : Nat → Rat) (S T : Nat → Bool) (a : Nat)
    (hA : 0 ≤ Av a) (hS : ∀ x, S x = true → T x = true) :
    pressureOf G Iv Av S a ≤ pressureOf G Iv Av T a := by
  unfold pressureOf
  apply add_le_add_left
  apply mul_le_mul_of_nonneg_left _ hA
  have hlen : ((G.neighbors a).filter S).length ≤ ((G.neighbors a).filter T).length :=
    filter_length_le_of_imp S T hS (G.neighbors a)
  have hcast : (((G.neighbors a).filter S).length : Rat) ≤
      (((G.neighbors a).filter T).length : Rat) := by exact_mod_cast hlen
  have hnn : (0 : Rat) ≤ (G.nodes.length : Rat) := by positivity
  exact div_le_div_of_nonneg_right hcast hnn

/-- A set T of nodes closed under bandwagon adoption (with profits Iv and
ambiguity Av): no node of the network outside T has positive pressure. -/
def closedSet (G : Network) (Iv Av : Nat → Rat) (T : Nat → Bool) : Prop :=
  ∀ a ∈ G.nodes, T a = false → ¬ 0 < pressureOf G Iv Av T a

theorem processAgents_below (G : Network) (Iv Av : Nat → Rat) (T : Nat → Bool)
    (hT : closedSet G Iv Av T) (hA : ∀ a ∈ G.nodes, 0 ≤ Av a) :
    ∀ (l : List Nat), (∀ a ∈ l, a ∈ G.nodes) →
      ∀ (st : AgentState) (c : Bool), st.I = Iv → st.A = Av →
        (∀ x, st.adopted x = true → T x = true) →
        ∀ x, ((processAgents G l (st, c)).1).adopted x = true → T x = true
  | [], _, st, c, _, _, hsub, x, hx => hsub x hx
  | a :: rest, hl, st, c, hI, hA', hsub, x, hx => by
      rw [processAgents] at hx
      have hanodes : a ∈ G.nodes := hl a (List.mem_cons_self a rest)
      have hsub' : ∀ y, (evalAgent G st a).adopted y = true → T y = true := by
        intro y hy
        unfold evalAgent at hy
        by_cases hb : 0 < bandwagonPressure G st a
        · rw [if_pos hb] at hy
          change (if y = a then true else st.adopted y) = true at hy
          by_cases hya : y = a
          · subst hya
            by_cases hTa : T y = true
            · exact hTa
            · exfalso
              have hTa' : T y = false := by revert hTa; cases T y <;> simp
              have hmono : pressureOf G Iv Av st.adopted y ≤ pressureOf G Iv Av T y :=
                pressureOf_mono G Iv Av st.adopted T y (hA y hanodes) hsub
              have hb' : 0 < pressureOf G Iv Av st.adopted y := by
                have : bandwagonPressure G st y = pressureOf G Iv Av st.adopted y := by
                  unfold bandwagonPressure
                  rw [hI, hA']
                rw [this] at hb
                exact hb
              exact hT y hanodes hTa' (lt_of_lt_of_le hb' hmono)
          · rw [if_neg hya] at hy
            exact hsub y hy
        · rw [if_neg hb] at hy
          exact hsub y hy
      exact processAgents_below G Iv Av T hT hA rest
        (fun b hb => hl b (List.mem_cons_of_mem a hb))
        (evalAgent G st a) _ (by rw [evalAgent_I, hI]) (by rw [evalAgent_A, hA'])
        hsub' x hx

theorem simLoop_below (G : Network) (sh : Nat → List Nat → List Nat)
    (hsh : ∀ k l, List.Perm (sh k l) l) (Iv Av : Nat → Rat) (T : Nat → Bool)
    (hT : closedSet G Iv Av T) (hA : ∀ a ∈ G.nodes, 0 ≤ Av a) :
    ∀ (fuel k : Nat) (st : AgentState), st.I = Iv → st.A = Av →
      (∀ x, st.adopted x = true → T x = true) →
      ∀ x, (simLoop G sh k fuel st).adopted x = true → T x = true
  | 0, _, _, _, _, hsub, x, hx => hsub x hx
  | fuel + 1, k, st, hI, hA', hsub, x, hx => by
      rw [simLoop] at hx
      set p := processAgents G (sh k (unadoptedAgents G st)) (st, false) with hp
      have hordmem : ∀ a ∈ sh k (unadoptedAgents G st), a ∈ G.nodes := by
        intro a ha
        exact ((mem_unadoptedAgents G st a).mp
          ((hsh k (unadoptedAgents G st)).mem_iff.mp ha)).1
      have hbelow : ∀ y, p.1.adopted y = true → T y = true := by
        intro y hy
        exact processAgents_below G Iv Av T hT hA _ hordmem st false hI hA' hsub y hy
      by_cases hc : p.2
      · simp only [hc, if_true] at hx
        exact simLoop_below G sh hsh Iv Av T hT hA fuel (k + 1) p.1
          (by rw [hp, processAgents_I, hI]) (by rw [hp, processAgents_A, hA'])
          hbelow x hx
      · simp only [hc, if_false] at hx
        exact hbelow x hx

/-- The adopted set reached by the round loop with enough fuel is the same for
every choice of per-round shuffles, provided the ambiguity weights are
nonnegative on the network. -/
theorem simLoop_order_invariant (G : Network) (sh1 sh2 : Nat → List Nat → List Nat)
    (hsh1 : ∀ k l, List.Perm (sh1 k l) l) (hsh2 : ∀ k l, List.Perm (sh2 k l) l)
    (st : AgentState) (hA : ∀ a ∈ G.nodes, 0 ≤ st.A a)
    (f1 f2 : Nat) (hf1 : G.nodes.length < f1) (hf2 : G.nodes.length < f2) :
    ∀ x, (simLoop G sh1 0 f1 st).adopted x = (simLoop G sh2 0 f2 st).adopted x := by
  have hc1 : unadoptedCount G st < f1 := lt_of_le_of_lt (unadoptedCount_le G st) hf1
  have hc2 : unadoptedCount G st < f2 := lt_of_le_of_lt (unadoptedCount_le G st) hf2
  set F1 := simLoop G sh1 0 f1 st with hF1
  set F2 := simLoop G sh2 0 f2 st with hF2
  have hfix1 : isFixedPoint G F1 := simLoop_fixedPoint G sh1 hsh1 f1 0 st hc1
  have hfix2 : isFixedPoint G F2 := simLoop_fixedPoint G sh2 hsh2 f2 0 st hc2
  have hI1 : F1.I = st.I := simLoop_I G sh1 f1 0 st
  have hA1 : F1.A = st.A := simLoop_A G sh1 f1 0 st
  have hI2 : F2.I = st.I := simLoop_I G sh2 f2 0 st
  have hA2 : F2.A = st.A := simLoop_A G sh2 f2 0 st
  have hclosed1 : closedSet G st.I st.A F1.adopted := by
    intro a ha hfalse
    have := hfix1 a ha hfalse
    unfold bandwagonPressure at this
    rw [hI1, hA1] at this
    exact this
  have hclosed2 : closedSet G st.I st.A F2.adopted := by
    intro a ha hfalse
    have := hfix2 a ha hfalse
    unfold bandwagonPressure at this
    rw [hI2, hA2] at this
    exact this
  have hsub12 : ∀ x, F1.adopted x = true → F2.adopted x = true := by
    intro x hx
    exact simLoop_below G sh1 hsh1 st.I st.A F2.adopted hclosed2 hA f1 0 st rfl rfl
      (fun y hy => simLoop_adopted_mono G sh2 f2 0 st y hy) x hx
  have hsub21 : ∀ x, F2.adopted x = true → F1.adopted x = true := by
    intro x hx
    exact simLoop_below G sh2 hsh2 st.I st.A F1.adopted hclosed1 hA f2 0 st rfl rfl
      (fun y hy => simLoop_adopted_mono G sh1 f1 0 st y hy) x hx
  intro x
  rcases Bool.eq_false_or_eq_true (F1.adopted x) with h1 | h1
  · rw [h1, hsub12 x h1]
  · rcases Bool.eq_false_or_eq_true (F2.adopted x) with h2 | h2
    · rw [hsub21 x h2] at h1
      exact Bool.noConfusion h1
    · rw [h1, h2]

/-! #### The influence attribute of adopted nodes is never touched again -/

theorem evalAgent_influence_ne (G : Network) (st : AgentState) (a x : Nat) (h : x ≠ a) :
    (evalAgent G st a).influence x = st.influence x := by
  unfold evalAgent
  split
  · show (if x = a then adoptedNeighbors G st a else st.influence x) = st.influence x
    rw [if_neg h]
  · rfl

theorem processAgents_influence_outside (G : Network) :
    ∀ (l : List Nat) (p : AgentState × Bool) (x : Nat), x ∉ l →
      ((processAgents G l p).1).influence x = p.1.influence x
  | [], _, _, _ => rfl
  | a :: rest, p, x, hx => by
      rw [processAgents]
      have hxa : x ≠ a := fun h => hx (h ▸ List.mem_cons_self a rest)
      have hxr : x ∉ rest := fun h => hx (List.mem_cons_of_mem a h)
      rw [processAgents_influence_outside G rest _ x hxr]
      exact evalAgent_influence_ne G p.1 a x hxa

theorem simLoop_influence_seed (G : Network) (sh : Nat → List Nat → List Nat)
    (hsh : ∀ k l, List.Perm (sh k l) l) :
    ∀ (fuel k : Nat) (st : AgentState) (s : Nat),
      st.adopted s = true → st.influence s = [] →
      (simLoop G sh k fuel st).influence s = []
  | 0, _, _, _, _, hinf => hinf
  | fuel + 1, k, st, s, hs, hinf => by
      rw [simLoop]
      set p := processAgents G (sh k (unadoptedAgents G st)) (st, false) with hp
      have hnotin : s ∉ sh k (unadoptedAgents G st) := by
        intro hmem
        have h2 := ((mem_unadoptedAgents G st s).mp ((hsh k _).mem_iff.mp hmem)).2
        rw [hs] at h2
        exact Bool.noConfusion h2
      have hpres : p.1.influence s = [] := by
        rw [hp, processAgents_influence_outside G _ _ s hnotin]
        exact hinf
      have hadopt : p.1.adopted s = true := processAgents_adopted_mono G _ _ s hs
      by_cases hc : p.2
      · simp only [hc, if_true]
        exact simLoop_influence_seed G sh hsh fuel (k + 1) p.1 s hadopt hpres
      · rw [if_neg hc]
        exact hpres

/-! ### Concrete networks used to instantiate the simulation theorems -/

/-- A two-node network with a single edge. -/
def pairNet : Network :=
  { nodes := [0, 1]
    neighbors := fun n => if n = 0 then [1] else if n = 1 then [0] else [] }

/-- Node 0 is the seed; node 1 has positive assessed profit, zero ambiguity. -/
def pairState : AgentState :=
  { I := fun _ => 1
    A := fun _ => 0
    adopted := fun n => n == 0
    influence := fun _ => [] }

/-- A path 1 - 2 - 3 plus the isolated seed node 0. -/
def chainNet : Network :=
  { nodes := [0, 1, 2, 3]
    neighbors := fun n =>
      if n = 1 then [2] else if n = 2 then [1, 3] else if n = 3 then [2] else [] }

/-- Negative ambiguity on the chain network: adopted neighbors push agents
below their standalone (positive) assessed profit. -/
def chainStateNeg : AgentState :=
  { I := fun n => if n = 0 then 0 else 1 / 10
    A := fun _ => -1
    adopted := fun n => n == 0
    influence := fun _ => [] }

/-- The chain network with nonnegative ambiguity. -/
def chainStatePos : AgentState :=
  { I := fun n => if n = 0 then 0 else 1 / 10
    A := fun _ => 1
    adopted := fun n => n == 0
    influence := fun _ => [] }

/-! ### Claims C1 - C4 -/

/-- C1: During simulation, an unadopted node a adopts at its activation moment
exactly when I_a + A_a * (adoptedNeighborCount(a) / totalNodeCount) > 0 holds
there; when it adopts, its influence list is set to exactly the adopted
neighbors observed at that moment, and the seed node's influence list stays
empty for the whole run. -/
theorem C1_adoption_rule (G : Network) (sh : Nat → List Nat → List Nat)
    (st st0 : AgentState) (a s k fuel : Nat)
    (hsh : ∀ k l, List.Perm (sh k l) l)
    (ha : st.adopted a = false)
    (hs : st0.adopted s = true) (hsinf : st0.influence s = []) :
    ((evalAgent G st a).adopted a = true ↔ 0 < bandwagonPressure G st a) ∧
      (0 < bandwagonPressure G st a →
        (evalAgent G st a).influence a = adoptedNeighbors G st a) ∧
      (simLoop G sh k fuel st0).influence s = [] := by
  refine ⟨?_, ?_, simLoop_influence_seed G sh hsh fuel k st0 s hs hsinf⟩
  · constructor
    · intro h
      by_contra hb
      unfold evalAgent at h
      rw [if_neg hb] at h
      rw [ha] at h
      exact Bool.noConfusion h
    · intro hb
      unfold evalAgent
      rw [if_pos hb]
      show (if a = a then true else st.adopted a) = true
      rw [if_pos rfl]
  · intro hb
    unfold evalAgent
    rw [if_pos hb]
    show (if a = a then adoptedNeighbors G st a else st.influence a) = _
    rw [if_pos rfl]

theorem C1_adoption_rule_witness :
    ((evalAgent pairNet pairState 1).adopted 1 = true ↔
        0 < bandwagonPressure pairNet pairState 1) ∧
      (0 < bandwagonPressure pairNet pairState 1 →
        (evalAgent pairNet pairState 1).influence 1 =
          adoptedNeighbors pairNet pairState 1) ∧
      (simLoop pairNet (fun _ l => l) 0 2 pairState).influence 0 = [] :=
  C1_adoption_rule pairNet (fun _ l => l) pairState pairState 1 0 0 2
    (fun _ l => List.Perm.refl l) (by decide) (by decide) rfl

/-- C2 counterexample: with a fixed network, fixed assessed profits I, a fixed
(negative) ambiguity A that is the same for every node, and a fixed seed node,
two valid choices of per-round activation orders halt with different numbers
of adopted nodes (3 versus 2), so the claimed order-invariance of the final
adopted count is false as stated. -/
theorem C2_order_dependence :
    ¬ (∀ sh1 sh2 : Nat → List Nat → List Nat,
        (∀ k l, List.Perm (sh1 k l) l) → (∀ k l, List.Perm (sh2 k l) l) →
        adoptedCount chainNet (simLoop chainNet sh1 0 5 chainStateNeg) =
          adoptedCount chainNet (simLoop chainNet sh2 0 5 chainStateNeg)) := by
  intro h
  have h2 := h (fun _ l => l) (fun _ l => l.rotate 1)
    (fun _ l => List.Perm.refl l) (fun _ l => List.rotate_perm l 1)
  have h3 : adoptedCount chainNet (simLoop chainNet (fun _ l => l) 0 5 chainStateNeg) = 3 := by
    with_unfolding_all decide
  have h4 : adoptedCount chainNet
      (simLoop chainNet (fun _ l => l.rotate 1) 0 5 chainStateNeg) = 2 := by
    with_unfolding_all decide
  rw [h3, h4] at h2
  exact absurd h2 (by decide)

/-- C2 (amended): provided the ambiguity weights are nonnegative on the network
(as in the program's sweep, where A ranges over 1..5), the number of adopted
nodes when the round loop halts is the same for every choice of the per-round
random activation orders. -/
theorem C2_count_order_invariant (G : Network) (sh1 sh2 : Nat → List Nat → List Nat)
    (st : AgentState) (f1 f2 : Nat)
    (hsh1 : ∀ k l, List.Perm (sh1 k l) l) (hsh2 : ∀ k l, List.Perm (sh2 k l) l)
    (hA : ∀ a ∈ G.nodes, 0 ≤ st.A a)
    (hf1 : G.nodes.length < f1) (hf2 : G.nodes.length < f2) :
    adoptedCount G (simLoop G sh1 0 f1 st) = adoptedCount G (simLoop G sh2 0 f2 st) := by
  have hpt := simLoop_order_invariant G sh1 sh2 hsh1 hsh2 st hA f1 f2 hf1 hf2
  unfold adoptedCount
  rw [List.filter_congr (fun a _ => hpt a)]

theorem C2_count_order_invariant_witness :
    adoptedCount chainNet (simLoop chainNet (fun _ l => l) 0 5 chainStatePos) =
      adoptedCount chainNet (simLoop chainNet (fun _ l => l.reverse) 0 5 chainStatePos) :=
  C2_count_order_invariant chainNet (fun _ l => l) (fun _ l => l.reverse) chainStatePos 5 5
    (fun _ l => List.Perm.refl l) (fun _ l => List.reverse_perm l)
    (by with_unfolding_all decide) (by decide) (by decide)

/-- C3: for every network with a seeded adopter among its nodes, the round loop
reaches a fixed point (no remaining agent's pressure signal exceeds 0) and
halts after at most N = node-count rounds: running it with any fuel of at
least N rounds returns the same state as running it with exactly N rounds. -/
theorem C3_termination (G : Network) (sh : Nat → List Nat → List Nat)
    (st : AgentState) (fuel : Nat)
    (hsh : ∀ k l, List.Perm (sh k l) l)
    (hseed : ∃ s ∈ G.nodes, st.adopted s = true)
    (hfuel : G.nodes.length ≤ fuel) :
    isFixedPoint G (simLoop G sh 0 fuel st) ∧
      simLoop G sh 0 fuel st = simLoop G sh 0 G.nodes.length st := by
  obtain ⟨s, hsmem, hsa⟩ := hseed
  have hcount : unadoptedCount G st < G.nodes.length :=
    unadoptedCount_lt_of_seed G st s hsmem hsa
  have h1 : unadoptedCount G st < fuel := lt_of_lt_of_le hcount hfuel
  exact ⟨simLoop_fixedPoint G sh hsh fuel 0 st h1,
    simLoop_fuel_eq G sh hsh fuel G.nodes.length 0 st h1 hcount⟩

theorem C3_termination_witness :
    isFixedPoint pairNet (simLoop pairNet (fun _ l => l) 0 3 pairState) ∧
      simLoop pairNet (fun _ l => l) 0 3 pairState =
        simLoop pairNet (fun _ l => l) 0 pairNet.nodes.length pairState :=
  C3_termination pairNet (fun _ l => l) pairState 3
    (fun _ l => List.Perm.refl l) ⟨0, by decide, by decide⟩ (by decide)

/-- C4: a node's adopted flag never reverts: if a node is adopted in some state
then it is still adopted after any single agent evaluation, after any agent
processing pass, and in the state returned by the round loop. -/
theorem C4_adopted_monotone (G : Network) (sh : Nat → List Nat → List Nat)
    (k fuel : Nat) (st : AgentState) (a b : Nat) (l : List Nat) (c : Bool)
    (h : st.adopted a = true) :
    (evalAgent G st b).adopted a = true ∧
      ((processAgents G l (st, c)).1).adopted a = true ∧
      (simLoop G sh k fuel st).adopted a = true :=
  ⟨evalAgent_adopted_mono G st b a h,
    processAgents_adopted_mono G l (st, c) a h,
    simLoop_adopted_mono G sh fuel k st a h⟩

theorem C4_adopted_monotone_witness :
    (evalAgent chainNet chainStateNeg 1).adopted 0 = true ∧
      ((processAgents chainNet [1, 2, 3] (chainStateNeg, false)).1).adopted 0 = true ∧
      (simLoop chainNet (fun _ l => l) 0 5 chainStateNeg).adopted 0 = true :=
  C4_adopted_monotone chainNet (fun _ l => l) 0 5 chainStateNeg 0 1 [1, 2, 3] false
    (by decide)

/-! ### Core-periphery graph generation (graphgen.py and stats.py)

random.sample(tuple(allPotentialEdges), pties) is modelled by the list of
positions the sampler picks: a without-replacement draw is any duplicate-free
list of in-range positions.  Theorems about the generator quantify over all
such position lists.
-/

/-- possibleTies from stats.py: (total ties, total core ties, total
peripheral ties) for a network of numberOfNodes nodes with numCoreNodes
core nodes. -/
def possibleTies (numberOfNodes numCoreNodes : Nat) : Nat × Nat × Nat :=
  let totalPossibleTies := numberOfNodes * (numberOfNodes - 1) / 2
  let totalPossibleCoreTies := numCoreNodes * (numCoreNodes - 1) / 2
  (totalPossibleTies, totalPossibleCoreTies, totalPossibleTies - totalPossibleCoreTies)

/-- dissimilarProduct from graphgen.py: ((x, y) for x in A for y in B if x != y). -/
def dissimilarProduct (A B : List Nat) : List (Nat × Nat) :=
  A.flatMap (fun x => (B.filter (fun y => x != y)).map (fun y => (x, y)))

/-- itertools.combinations(l, 2), in iteration order. -/
def combinations2 : List Nat → List (Nat × Nat)
  | [] => []
  | x :: xs => (xs.map (fun y => (x, y))) ++ combinations2 xs

/-- coreNodes = range(numCoreNodes). -/
def coreNodesList (numCoreNodes : Nat) : List Nat := List.range numCoreNodes

/-- periphNodes = range(numCoreNodes, numCoreNodes + numPeriphNodes). -/
def periphNodesList (numCoreNodes numPeriphNodes : Nat) : List Nat :=
  List.range' numCoreNodes numPeriphNodes

/-- allPotentialEdges = chain(pcedges, ppedges): the ordered candidate list the
sampler draws from. -/
def allPotentialEdges (numCoreNodes numPeriphNodes : Nat) : List (Nat × Nat) :=
  dissimilarProduct (periphNodesList numCoreNodes numPeriphNodes)
      (coreNodesList numCoreNodes) ++
    dissimilarProduct (periphNodesList numCoreNodes numPeriphNodes)
      (periphNodesList numCoreNodes numPeriphNodes)

/-- The entries of l at the sampled positions, in sample order. -/
def sampleList (l : List (Nat × Nat)) : List Nat → List (Nat × Nat)
  | [] => []
  | i :: rest =>
      match l[i]? with
      | some e => e :: sampleList l rest
      | none => sampleList l rest

/-- A networkx MultiGraph: node list plus edge list (parallel edges kept). -/
structure MultiGraph where
  nodes : List Nat
  edges : List (Nat × Nat)

/-- generateARCorePeriph from graphgen.py: complete core subgraph plus the
sampled peripheral edges, with sel the positions the random sampler picked. -/
def generateARCorePeriph (numCoreNodes numPeriphNodes : Nat) (sel : List Nat) : MultiGraph :=
  { nodes := List.range (numCoreNodes + numPeriphNodes)
    edges := combinations2 (coreNodesList numCoreNodes) ++
      sampleList (allPotentialEdges numCoreNodes numPeriphNodes) sel }

/-- The feasibility check of DICorePeriphNxGenerator.__init__: raise before any
network can be generated when pties exceeds the possible peripheral ties. -/
def DICorePeriphNxGeneratorInit (numCoreNodes numPeriphNodes pties : Nat) :
    Except String Unit :=
  if (possibleTies (numCoreNodes + numPeriphNodes) numCoreNodes).2.2 < pties then
    Except.error "Cannot create more ties than possible given number of nodes."
  else Except.ok ()

/-! #### Structure of the candidate list -/

theorem mem_dissimilarProduct (A B : List Nat) (e : Nat × Nat) :
    e ∈ dissimilarProduct A B ↔ (e.1 ∈ A ∧ e.2 ∈ B ∧ e.1 ≠ e.2) := by
  unfold dissimilarProduct
  rw [List.mem_flatMap]
  constructor
  · rintro ⟨x, hx, hmem⟩
    rw [List.mem_map] at hmem
    obtain ⟨y, hy, rfl⟩ := hmem
    rw [List.mem_filter] at hy
    exact ⟨hx, hy.1, by simpa using hy.2⟩
  · rintro ⟨h1, h2, h3⟩
    refine ⟨e.1, h1, ?_⟩
    rw [List.mem_map]
    refine ⟨e.2, ?_, rfl⟩
    rw [List.mem_filter]
    exact ⟨h2, by simpa using h3⟩

theorem nodup_dissimilarProduct (A B : List Nat) (hA : A.Nodup) (hB : B.Nodup) :
    (dissimilarProduct A B).Nodup := by
  unfold dissimilarProduct
  apply List.nodup_flatMap.mpr
  constructor
  · intro x _
    exact (hB.filter _).map (fun y1 y2 h => congrArg Prod.snd h)
  · refine hA.imp ?_
    intro x y hxy e he1 he2
    rw [List.mem_map] at he1 he2
    obtain ⟨y1, _, h1⟩ := he1
    obtain ⟨y2, _, h2⟩ := he2
    have hx1 : e.1 = x := by rw [← h1]
    have hx2 : e.1 = y := by rw [← h2]
    exact hxy (hx1 ▸ hx2)

theorem mem_allPotentialEdges (C P : Nat) (e : Nat × Nat) :
    e ∈ allPotentialEdges C P ↔
      (C ≤ e.1 ∧ e.1 < C + P ∧ e.2 < C) ∨
      (C ≤ e.1 ∧ e.1 < C + P ∧ C ≤ e.2 ∧ e.2 < C + P ∧ e.1 ≠ e.2) := by
  unfold allPotentialEdges coreNodesList periphNodesList
  rw [List.mem_append, mem_dissimilarProduct, mem_dissimilarProduct]
  simp only [List.mem_range, List.mem_range'_1]
  constructor
  · rintro (⟨⟨h1, h2⟩, h3, _⟩ | ⟨⟨h1, h2⟩, ⟨h3, h4⟩, h5⟩)
    · exact Or.inl ⟨h1, h2, h3⟩
    · exact Or.inr ⟨h1, h2, h3, h4, h5⟩
  · rintro (⟨h1, h2, h3⟩ | ⟨h1, h2, h3, h4, h5⟩)
    · exact Or.inl ⟨⟨h1, h2⟩, h3, by omega⟩
    · exact Or.inr ⟨⟨h1, h2⟩, ⟨h3, h4⟩, h5⟩

theorem nodup_allPotentialEdges (C P : Nat) : (allPotentialEdges C P).Nodup := by
  unfold allPotentialEdges
  apply List.Nodup.append
  · exact nodup_dissimilarProduct _ _ (List.nodup_range' _ _) (List.nodup_range _)
  · exact nodup_dissimilarProduct _ _ (List.nodup_range' _ _) (List.nodup_range' _ _)
  · intro e he1 he2
    have h1 := ((mem_dissimilarProduct _ _ e).mp he1).2.1
    have h2 := ((mem_dissimilarProduct _ _ e).mp he2).2.1
    unfold coreNodesList at h1
    unfold periphNodesList at h2
    rw [List.mem_range] at h1
    rw [List.mem_range'_1] at h2
    omega

/-! #### Lengths of the generated edge lists -/

theorem combinations2_length : ∀ l : List Nat, (combinations2 l).length = l.length.choose 2
  | [] => rfl
  | x :: xs => by
      rw [combinations2, List.length_append, List.length_map, combinations2_length xs,
        List.length_cons, Nat.choose_succ_succ, Nat.choose_one_right]

theorem sum_map_const_nat (c : Nat) : ∀ l : List Nat, (l.map (fun _ => c)).sum = l.length * c
  | [] => by simp
  | x :: xs => by
      rw [List.map_cons, List.sum_cons, sum_map_const_nat c xs, List.length_cons,
        Nat.succ_mul]
      omega

theorem length_dissimilarProduct_disjoint (A B : List Nat)
    (h : ∀ x ∈ A, ∀ y ∈ B, x ≠ y) :
    (dissimilarProduct A B).length = A.length * B.length := by
  induction A with
  | nil => simp [dissimilarProduct]
  | cons x xs ih =>
      unfold dissimilarProduct at ih ⊢
      rw [List.flatMap_cons, List.length_append, List.length_map,
        List.filter_eq_self.mpr, ih (fun a ha => h a (List.mem_cons_of_mem x ha)),
        List.length_cons, Nat.succ_mul]
      · omega
      · intro y hy
        simpa using h x (List.mem_cons_self x xs) y hy

theorem length_dissimilarProduct_self (A : List Nat) (hA : A.Nodup) :
    (dissimilarProduct A A).length = A.length * (A.length - 1) := by
  unfold dissimilarProduct
  rw [List.length_flatMap]
  have hmap : ∀ x ∈ A,
      ((A.filter (fun y => x != y)).map (fun y => (x, y))).length = A.length - 1 := by
    intro x hx
    rw [List.length_map]
    have hpred : ∀ y ∈ A, (x != y) = (y != x) := by
      intro y _
      show (!(x == y)) = (!(y == x))
      rw [Bool.beq_comm]
    rw [List.filter_congr hpred, ← hA.erase_eq_filter x, List.length_erase_of_mem hx]
  simp only [Function.comp_def]
  rw [List.map_congr_left hmap, sum_map_const_nat]

theorem allPotentialEdges_length (C P : Nat) :
    (allPotentialEdges C P).length = P * C + P * (P - 1) := by
  unfold allPotentialEdges periphNodesList coreNodesList
  rw [List.length_append,
    length_dissimilarProduct_disjoint (List.range' C P) (List.range C) (by
      intro x hx y hy
      rw [List.mem_range'_1] at hx
      rw [List.mem_range] at hy
      omega),
    length_dissimilarProduct_self (List.range' C P) (List.nodup_range' _ _),
    List.length_range', List.length_range]

/-! #### Sampling without replacement -/

theorem sampleList_length (l : List (Nat × Nat)) :
    ∀ sel : List Nat, (∀ i ∈ sel, i < l.length) → (sampleList l sel).length = sel.length
  | [], _ => rfl
  | i :: rest, h => by
      have hi : i < l.length := h i (List.mem_cons_self i rest)
      rw [sampleList, List.getElem?_eq_getElem hi]
      show (l[i] :: sampleList l rest).length = _
      rw [List.length_cons,
        sampleList_length l rest (fun j hj => h j (List.mem_cons_of_mem i hj)),
        List.length_cons]

theorem sampleList_subset (l : List (Nat × Nat)) :
    ∀ (sel : List Nat) (e : Nat × Nat), e ∈ sampleList l sel → e ∈ l
  | [], _, he => by cases he
  | i :: rest, e, he => by
      rw [sampleList] at he
      rcases hsome : l[i]? with _ | x
      · rw [hsome] at he
        exact sampleList_subset l rest e he
      · rw [hsome] at he
        rcases List.mem_cons.mp he with rfl | hmem
        · exact List.getElem?_mem hsome
        · exact sampleList_subset l rest e hmem

theorem sampleList_mem_index (l : List (Nat × Nat)) :
    ∀ (sel : List Nat) (e : Nat × Nat), e ∈ sampleList l sel →
      ∃ i ∈ sel, l[i]? = some e
  | [], _, he => by cases he
  | i :: rest, e, he => by
      rw [sampleList] at he
      rcases hsome : l[i]? with _ | x
      · rw [hsome] at he
        obtain ⟨j, hj, hje⟩ := sampleList_mem_index l rest e he
        exact ⟨j, List.mem_cons_of_mem i hj, hje⟩
      · rw [hsome] at he
        rcases List.mem_cons.mp he with rfl | hmem
        · exact ⟨i, List.mem_cons_self i rest, hsome⟩
        · obtain ⟨j, hj, hje⟩ := sampleList_mem_index l rest e hmem
          exact ⟨j, List.mem_cons_of_mem i hj, hje⟩

theorem sampleList_nodup (l : List (Nat × Nat)) (hl : l.Nodup) :
    ∀ sel : List Nat, (∀ i ∈ sel, i < l.length) → sel.Nodup →
      (sampleList l sel).Nodup
  | [], _, _ => List.nodup_nil
  | i :: rest, hb, hnd => by
      have hi : i < l.length := hb i (List.mem_cons_self i rest)
      rw [sampleList, List.getElem?_eq_getElem hi]
      show (l[i] :: sampleList l rest).Nodup
      rw [List.nodup_cons] at hnd ⊢
      constructor
      · intro hmem
        obtain ⟨j, hj, hje⟩ := sampleList_mem_index l rest _ hmem
        have hij : i = j := List.getElem?_inj hi hl (by rw [hje, List.getElem?_eq_getElem hi])
        exact hnd.1 (hij ▸ hj)
      · exact sampleList_nodup l hl rest (fun j hj => hb j (List.mem_cons_of_mem i hj)) hnd.2

/-! ### Claims C5, C6, C8 -/

/-- C5 counterexample: for the feasible request numCore = 1, numPeriphery = 2,
peripheralTies = 2 (candidate universe size 3), the sampler draws from the
ordered 4-element list pcedges ++ ppedges in which the single unordered
periphery pair appears in both orientations, so one possible
without-replacement draw (positions 2 and 3) adds the two edges (1,2) and
(2,1): two peripheral edges connecting the same unordered pair of nodes.
The claimed distinct-unordered-pair uniform sampling is therefore false as
stated. -/
theorem C5_parallel_pair_possible :
    2 ≤ (possibleTies (1 + 2) 1).2.2 ∧
      List.Nodup [2, 3] ∧ (allPotentialEdges 1 2).length = 4 ∧
      (generateARCorePeriph 1 2 [2, 3]).edges = [(1, 2), (2, 1)] ∧
      (1, 2).1 = (2, 1).2 ∧ (1, 2).2 = (2, 1).1 := by decide

/-- C5 (amended): the generator adds exactly peripheralTies edges, drawn
without replacement from the ordered candidate list pcedges ++ ppedges; the
draws are pairwise distinct as ordered pairs and every draw is a candidate
pair (periphery-core, or periphery-periphery with distinct endpoints), but the
candidate list contains each unordered periphery-periphery pair in both
orientations (its length is P*C + P*(P-1), not P*C + P*(P-1)/2), so two added
edges may connect the same unordered pair and unordered periphery-periphery
pairs are twice as likely per draw as periphery-core pairs. -/
theorem C5_sampling_structure (C P : Nat) (sel : List Nat)
    (hbound : ∀ i ∈ sel, i < (allPotentialEdges C P).length)
    (hnd : sel.Nodup) :
    (generateARCorePeriph C P sel).edges =
        combinations2 (coreNodesList C) ++ sampleList (allPotentialEdges C P) sel ∧
      (sampleList (allPotentialEdges C P) sel).length = sel.length ∧
      (sampleList (allPotentialEdges C P) sel).Nodup ∧
      (∀ e ∈ sampleList (allPotentialEdges C P) sel, e ∈ allPotentialEdges C P) ∧
      (∀ e : Nat × Nat, e ∈ allPotentialEdges C P ↔
        (C ≤ e.1 ∧ e.1 < C + P ∧ e.2 < C) ∨
        (C ≤ e.1 ∧ e.1 < C + P ∧ C ≤ e.2 ∧ e.2 < C + P ∧ e.1 ≠ e.2)) ∧
      (allPotentialEdges C P).length = P * C + P * (P - 1) :=
  ⟨rfl,
    sampleList_length _ sel hbound,
    sampleList_nodup _ (nodup_allPotentialEdges C P) sel hbound hnd,
    fun e he => sampleList_subset _ sel e he,
    mem_allPotentialEdges C P,
    allPotentialEdges_length C P⟩

theorem C5_sampling_structure_witness :
    (generateARCorePeriph 1 2 [0, 2]).edges =
        combinations2 (coreNodesList 1) ++ sampleList (allPotentialEdges 1 2) [0, 2] ∧
      (sampleList (allPotentialEdges 1 2) [0, 2]).length = [0, 2].length ∧
      (sampleList (allPotentialEdges 1 2) [0, 2]).Nodup ∧
      (∀ e ∈ sampleList (allPotentialEdges 1 2) [0, 2], e ∈ allPotentialEdges 1 2) ∧
      (∀ e : Nat × Nat, e ∈ allPotentialEdges 1 2 ↔
        (1 ≤ e.1 ∧ e.1 < 1 + 2 ∧ e.2 < 1) ∨
        (1 ≤ e.1 ∧ e.1 < 1 + 2 ∧ 1 ≤ e.2 ∧ e.2 < 1 + 2 ∧ e.1 ≠ e.2)) ∧
      (allPotentialEdges 1 2).length = 2 * 1 + 2 * (2 - 1) :=
  C5_sampling_structure 1 2 [0, 2] (by decide) (by decide)

/-- C6: requesting strictly more peripheral ties than the candidate universe
size totalPossibleTies(numCore + numPeriphery) - totalPossibleCoreTies(numCore)
always makes the generator's constructor raise, before any network can be
generated. -/
theorem C6_infeasible_request (C P pties : Nat)
    (h : (possibleTies (C + P) C).2.2 < pties) :
    DICorePeriphNxGeneratorInit C P pties =
      Except.error "Cannot create more ties than possible given number of nodes." := by
  unfold DICorePeriphNxGeneratorInit
  rw [if_pos h]

theorem C6_infeasible_request_witness :
    DICorePeriphNxGeneratorInit 0 2 2 =
      Except.error "Cannot create more ties than possible given number of nodes." :=
  C6_infeasible_request 0 2 2 (by decide)

/-- C8: every generated network has numCore + numPeriphery nodes and
totalPossibleCoreTies(numCore) + peripheralTies edges; with peripheralTies = 0
the sample is empty and the edges are exactly the complete core subgraph. -/
theorem C8_network_counts (C P pties : Nat) (sel : List Nat)
    (hlen : sel.length = pties)
    (hbound : ∀ i ∈ sel, i < (allPotentialEdges C P).length) :
    (generateARCorePeriph C P sel).nodes.length = C + P ∧
      (generateARCorePeriph C P sel).edges.length = (possibleTies (C + P) C).2.1 + pties ∧
      (pties = 0 → (generateARCorePeriph C P sel).edges = combinations2 (coreNodesList C)) := by
  refine ⟨?_, ?_, ?_⟩
  · show (List.range (C + P)).length = C + P
    exact List.length_range _
  · show (combinations2 (coreNodesList C) ++ sampleList (allPotentialEdges C P) sel).length = _
    rw [List.length_append, combinations2_length, sampleList_length _ sel hbound, hlen]
    unfold coreNodesList
    rw [List.length_range]
    show C.choose 2 + pties = (possibleTies (C + P) C).2.1 + pties
    rw [Nat.choose_two_right]
    rfl
  · intro h0
    have hnil : sel = [] := List.eq_nil_of_length_eq_zero (hlen.trans h0)
    subst hnil
    show combinations2 (coreNodesList C) ++ sampleList (allPotentialEdges C P) [] =
      combinations2 (coreNodesList C)
    rw [sampleList]
    exact List.append_nil _

theorem C8_network_counts_witness :
    (generateARCorePeriph 2 2 [0]).nodes.length = 2 + 2 ∧
      (generateARCorePeriph 2 2 [0]).edges.length = (possibleTies (2 + 2) 2).2.1 + 1 ∧
      (generateARCorePeriph 2 2 ([] : List Nat)).edges = combinations2 (coreNodesList 2) := by
  have h1 := C8_network_counts 2 2 1 [0] rfl (by decide)
  have h0 := C8_network_counts 2 2 0 [] rfl (by simp)
  exact ⟨h1.1, h1.2.1, h0.2.2 rfl⟩

/-! ### Boundary weaknesses and pressure points (graphsearch.py)

The adoption-labeled networkx graph carries node attributes segments, I, A.
The attribute write-back (weak / ppoint flags, used only for visualization) is
not part of the returned value and is not modelled.
-/

/-- A graph as seen by findWeaknessesAndPressurePoints. -/
structure WGraph where
  nodes : List Nat
  neighbors : Nat → List Nat
  segments : Nat → List String
  I : Nat → Rat
  A : Nat → Rat

/-- A = [n for n in G.nodes() if targetSegment in G.node[n]['segments']]. -/
def targetNodes (G : WGraph) (targetSegment : String) : List Nat :=
  G.nodes.filter (fun n => decide (targetSegment ∈ G.segments n))

/-- B_a_i = [n for n in G.neighbors(a_i) if targetSegment not in segments]. -/
def boundaryNeighbors (G : WGraph) (targetSegment : String) (a : Nat) : List Nat :=
  (G.neighbors a).filter (fun n => decide (targetSegment ∉ G.segments n))

/-- Bc_ik = I + A * (1 / number_of_nodes). -/
def constrainedPressure (G : WGraph) (a : Nat) : Rat :=
  G.I a + G.A a * (1 / (G.nodes.length : Rat))

/-- The pure computation of findWeaknessesAndPressurePoints: the loop appending
a_i to weakNodes when len(B_a_i) > 0 and Bc_ik > 0, and to pressurePointNodes
when len(B_a_i) >= (number_of_nodes - len(A)) * proportion. -/
def findWeaknessesAndPressurePoints (G : WGraph) (proportion : Rat)
    (targetSegment : String) : List Nat × List Nat :=
  let A := targetNodes G targetSegment
  let n_b : Nat := G.nodes.length - A.length
  (A.filter (fun a =>
      decide (boundaryNeighbors G targetSegment a ≠ []) &&
        decide (0 < constrainedPressure G a)),
   A.filter (fun a =>
      decide ((n_b : Rat) * proportion ≤ ((boundaryNeighbors G targetSegment a).length : Rat))))

/-- The hand-constructed test network of test_graphsearch.py: complete core
0-3, periphery 5, 6, 7, 8, all I = -2 and A = 3 except node 7 with I = 1.
Node and adjacency orders follow networkx edge-insertion order. -/
def wppTestGraph : WGraph :=
  { nodes := [0, 5, 1, 2, 3, 6, 7, 8]
    neighbors := fun a =>
      if a = 0 then [5, 7, 1, 2, 3]
      else if a = 5 then [0, 1, 2, 3, 6]
      else if a = 1 then [5, 8, 0, 2, 3]
      else if a = 2 then [5, 7, 0, 1, 3]
      else if a = 3 then [5, 0, 1, 2]
      else if a = 6 then [5, 7, 8]
      else if a = 7 then [0, 2, 6]
      else if a = 8 then [1, 6]
      else []
    segments := fun a => if a < 4 then ["core"] else ["periphery"]
    I := fun a => if a = 7 then 1 else -2
    A := fun _ => 3 }

/-- The same graph with node 7's assessed profit lowered: a modified content
for the same graph object, used to exhibit the staleness of the cache. -/
def wppTestGraphAltered : WGraph :=
  { wppTestGraph with I := fun _ => -2 }

/-! #### The module-level result cache (WPP_CACHE) -/

/-- A cache entry key: the identity of the graph object (networkx graphs hash
by object identity, so mutating a graph's attributes or edges does not change
its key), the proportion, and the target segment. -/
def wppLookup : List ((Nat × Rat × String) × (List Nat × List Nat)) →
    (Nat × Rat × String) → Option (List Nat × List Nat)
  | [], _ => none
  | (k, r) :: rest, key => if k = key then some r else wppLookup rest key

/-- clearWPPCache: WPP_CACHE.clear(). -/
def clearWPPCache (_ : List ((Nat × Rat × String) × (List Nat × List Nat))) :
    List ((Nat × Rat × String) × (List Nat × List Nat)) := []

/-- findWeaknessesAndPressurePoints with its caching wrapper: return the cached
pair when ignoreCache is false and the key is present, otherwise compute from
the current graph content and store the result under the key. -/
def findWPPCached (cache : List ((Nat × Rat × String) × (List Nat × List Nat)))
    (gid : Nat) (G : WGraph) (proportion : Rat) (targetSegment : String)
    (ignoreCache : Bool) :
    (List Nat × List Nat) × List ((Nat × Rat × String) × (List Nat × List Nat)) :=
  match (if ignoreCache then none
      else wppLookup cache (gid, proportion, targetSegment)) with
  | some r => (r, cache)
  | none =>
      (findWeaknessesAndPressurePoints G proportion targetSegment,
        ((gid, proportion, targetSegment),
          findWeaknessesAndPressurePoints G proportion targetSegment) :: cache)

/-! ### Claims C7 and C10 -/

/-- C7: findWeaknessesAndPressurePoints returns as weaknesses exactly the
target-segment nodes with at least one neighbor outside the segment and
I_a + A_a * (1/N) > 0, and as pressure points exactly the target-segment nodes
whose outside-neighbor count is at least proportion * (N - |targetSegment|);
on the hand-constructed core-periphery test graph with targetSegment
'periphery' and proportion 1/2 it returns ([7], [5, 7]). -/
theorem C7_boundary_analysis (G : WGraph) (proportion : Rat) (seg : String) :
    (∀ a, a ∈ (findWeaknessesAndPressurePoints G proportion seg).1 ↔
        (a ∈ G.nodes ∧ seg ∈ G.segments a ∧ boundaryNeighbors G seg a ≠ [] ∧
          0 < constrainedPressure G a)) ∧
      (∀ a, a ∈ (findWeaknessesAndPressurePoints G proportion seg).2 ↔
        (a ∈ G.nodes ∧ seg ∈ G.segments a ∧
          ((G.nodes.length - (targetNodes G seg).length : Nat) : Rat) * proportion ≤
            ((boundaryNeighbors G seg a).length : Rat))) ∧
      findWeaknessesAndPressurePoints wppTestGraph (1 / 2) "periphery" = ([7], [5, 7]) := by
  refine ⟨?_, ?_, by with_unfolding_all decide⟩
  · intro a
    unfold findWeaknessesAndPressurePoints targetNodes
    simp only [List.mem_filter, Bool.and_eq_true, decide_eq_true_eq]
    tauto
  · intro a
    unfold findWeaknessesAndPressurePoints targetNodes
    simp only [List.mem_filter, Bool.and_eq_true, decide_eq_true_eq]
    tauto

/-- C10: once the result for a key (graph identity, proportion, targetSegment)
is cached with ignoreCache false, any later call with the same key and
ignoreCache false returns the cached result and leaves the cache unchanged,
no matter how the graph content was modified in between; a fresh computation
on the current content happens exactly with ignoreCache true or after
clearWPPCache. -/
theorem C10_cache_staleness (cache : List ((Nat × Rat × String) × (List Nat × List Nat)))
    (gid : Nat) (G1 G2 : WGraph) (proportion : Rat) (seg : String)
    (hmiss : wppLookup cache (gid, proportion, seg) = none) :
    (findWPPCached cache gid G1 proportion seg false).1 =
        findWeaknessesAndPressurePoints G1 proportion seg ∧
      (findWPPCached cache gid G1 proportion seg false).2 =
        (((gid, proportion, seg), findWeaknessesAndPressurePoints G1 proportion seg) :: cache) ∧
      findWPPCached (findWPPCached cache gid G1 proportion seg false).2 gid G2
          proportion seg false =
        ((findWPPCached cache gid G1 proportion seg false).1,
          (findWPPCached cache gid G1 proportion seg false).2) ∧
      (findWPPCached (findWPPCached cache gid G1 proportion seg false).2 gid G2
          proportion seg true).1 =
        findWeaknessesAndPressurePoints G2 proportion seg ∧
      (findWPPCached
          (clearWPPCache (findWPPCached cache gid G1 proportion seg false).2)
          gid G2 proportion seg false).1 =
        findWeaknessesAndPressurePoints G2 proportion seg := by
  have h1 : findWPPCached cache gid G1 proportion seg false =
      (findWeaknessesAndPressurePoints G1 proportion seg,
        ((gid, proportion, seg), findWeaknessesAndPressurePoints G1 proportion seg) :: cache) := by
    unfold findWPPCached
    rw [show (if false = true then none else wppLookup cache (gid, proportion, seg)) = none
      from hmiss]
  have hhit : wppLookup
      (((gid, proportion, seg), findWeaknessesAndPressurePoints G1 proportion seg) :: cache)
      (gid, proportion, seg) = some (findWeaknessesAndPressurePoints G1 proportion seg) := by
    unfold wppLookup
    rw [if_pos rfl]
  refine ⟨by rw [h1], by rw [h1], ?_, ?_, ?_⟩
  · rw [h1]
    dsimp only
    unfold findWPPCached
    rw [show (if false = true then none
        else wppLookup
          (((gid, proportion, seg), findWeaknessesAndPressurePoints G1 proportion seg) :: cache)
          (gid, proportion, seg)) =
        some (findWeaknessesAndPressurePoints G1 proportion seg) from hhit]
  · rw [h1]
    rfl
  · rw [h1]
    rfl

theorem C10_cache_staleness_witness :
    (findWPPCached [] 0 wppTestGraph (1 / 2) "periphery" false).1 =
        findWeaknessesAndPressurePoints wppTestGraph (1 / 2) "periphery" ∧
      (findWPPCached [] 0 wppTestGraph (1 / 2) "periphery" false).2 =
        (((0, 1 / 2, "periphery"),
          findWeaknessesAndPressurePoints wppTestGraph (1 / 2) "periphery") :: []) ∧
      findWPPCached (findWPPCached [] 0 wppTestGraph (1 / 2) "periphery" false).2 0
          wppTestGraphAltered (1 / 2) "periphery" false =
        ((findWPPCached [] 0 wppTestGraph (1 / 2) "periphery" false).1,
          (findWPPCached [] 0 wppTestGraph (1 / 2) "periphery" false).2) ∧
      (findWPPCached (findWPPCached [] 0 wppTestGraph (1 / 2) "periphery" false).2 0
          wppTestGraphAltered (1 / 2) "periphery" true).1 =
        findWeaknessesAndPressurePoints wppTestGraphAltered (1 / 2) "periphery" ∧
      (findWPPCached
          (clearWPPCache (findWPPCached [] 0 wppTestGraph (1 / 2) "periphery" false).2)
          0 wppTestGraphAltered (1 / 2) "periphery" false).1 =
        findWeaknessesAndPressurePoints wppTestGraphAltered (1 / 2) "periphery" :=
  C10_cache_staleness [] 0 wppTestGraph wppTestGraphAltered (1 / 2) "periphery" rfl

/-! ### Running statistics (data.py): the Data accumulator -/

/-- sys.float_info.max = (2^53 - 1) * 2^971, the initial min sentinel. -/
def floatInfoMax : Rat := (2 ^ 53 - 1) * 2 ^ 971

/-- sys.float_info.min = 2^(-1022), the smallest positive normal float: the
initial max sentinel of Data.__init__. -/
def floatInfoMin : Rat := 1 / 2 ^ 1022

/-- The Data accumulator of data.py. -/
structure Data where
  N : Nat
  min : Rat
  max : Rat
  sum : Rat
  sum2 : Rat

/-- Data.__init__. -/
def Data.init : Data :=
  { N := 0, min := floatInfoMax, max := floatInfoMin, sum := 0, sum2 := 0 }

/-- Data.addDatum. -/
def Data.addDatum (d : Data) (val : Rat) : Data :=
  { N := d.N + 1
    min := if val < d.min then val else d.min
    max := if val > d.max then val else d.max
    sum := d.sum + val
    sum2 := d.sum2 + val ^ 2 }

/-- Feeding a whole observation sequence to the accumulator. -/
def Data.addData (d : Data) (vals : List Rat) : Data :=
  vals.foldl Data.addDatum d

/-- The average property: sum/N if N > 0 else 0.0. -/
def Data.average (d : Data) : Rat :=
  if d.N > 0 then d.sum / (d.N : Rat) else 0

/-- The variance property: (sum2 - N * average^2) / (N - 1) if N > 1 else 0.0. -/
def Data.variance (d : Data) : Rat :=
  if d.N > 1 then (d.sum2 - (d.N : Rat) * d.average ^ 2) / ((d.N - 1 : Nat) : Rat)
  else 0

/-- The maximum of a nonempty observation sequence, by direct two-pass fold. -/
def directMax (x : Rat) (xs : List Rat) : Rat :=
  xs.foldl (fun a b => if b > a then b else a) x

/-! ### Claim C9 -/

/-- C9 (code bug): after feeding the single observation -1 to a fresh Data
accumulator, the accumulator's max is still the initial sentinel
sys.float_info.min = 2^(-1022) (the smallest positive float, not the most
negative one), which differs from the direct maximum -1 of the sequence; the
claimed agreement of max with a two-pass computation fails for any sequence
whose true maximum is below 2^(-1022).  min, N, sum and sum2 are correct on
this input. -/
theorem C9_max_sentinel_bug :
    (Data.init.addData [(-1)]).max = floatInfoMin ∧
      directMax (-1) [] = (-1 : Rat) ∧
      ((-1 : Rat) < floatInfoMin) ∧
      (Data.init.addData [(-1)]).max ≠ directMax (-1) [] ∧
      (Data.init.addData [(-1)]).min = (-1 : Rat) ∧
      (Data.init.addData [(-1)]).N = 1 ∧
      (Data.init.addData [(-1)]).sum = (-1 : Rat) ∧
      (Data.init.addData [(-1)]).sum2 = (1 : Rat) := by
  have hngt : ¬ (-1 : Rat) > floatInfoMin := by
    unfold floatInfoMin
    norm_num
  have hmax : (Data.init.addData [(-1)]).max = floatInfoMin := by
    show (if (-1 : Rat) > floatInfoMin then (-1 : Rat) else floatInfoMin) = floatInfoMin
    rw [if_neg hngt]
  have hlt : (-1 : Rat) < floatInfoMax := by
    unfold floatInfoMax
    norm_num
  have hmin : (Data.init.addData [(-1)]).min = (-1 : Rat) := by
    show (if (-1 : Rat) < floatInfoMax then (-1 : Rat) else floatInfoMax) = (-1 : Rat)
    rw [if_pos hlt]
  refine ⟨hmax, rfl, ?_, ?_, hmin, rfl, ?_, ?_⟩
  · unfold floatInfoMin
    norm_num
  · rw [hmax]
    show floatInfoMin ≠ (-1 : Rat)
    unfold floatInfoMin
    norm_num
  · show (0 : Rat) + (-1) = -1
    norm_num
  · show (0 : Rat) + (-1) ^ 2 = 1
    norm_num
